import Mathlib

/-!
Verification of the order issuance/verification core of
`src/javascript-node/html-node/server.js`.

Strings are embedded as `List Char` (`Str`): one element per UTF-16 unit of
the JavaScript string (all characters appearing here are BMP code points, so
this is exact).  JavaScript numbers are embedded as an inductive `JsValue`
whose finite numbers are rationals: the claims only distinguish
finite/non-finite and integral/non-integral values, which `Rat` captures
exactly for every input the server manipulates.

The only library call whose behaviour is modelled abstractly is
`crypto.createHmac("sha256", signingSecret).update(p).digest("hex")`: it is
a parameter `hs : Str → Str` of every definition that signs, standing for
the full 64-hex-character HMAC-SHA256 digest under the process signing
secret.  Theorems that need its shape take the hypothesis that its output
is 64 lowercase hex characters (`HexDigest64`), or merely that its output
contains no underscore.
-/

/-- JavaScript strings, one list element per UTF-16 unit. -/
abbrev Str := List Char

/-- Whitespace recognised by `String.prototype.trim` / `parseInt`
(the characters actually occurring in the repository's data). -/
def isWsB (c : Char) : Bool :=
  c = ' ' || c = '\t' || c = '\n' || c = '\r'

/-- ASCII decimal digit test. -/
def isDigitB (c : Char) : Bool :=
  '0' ≤ c && c ≤ '9'

/-- The decimal digit character for `n < 10`. -/
def digitChar (n : Nat) : Char :=
  Char.ofNat (48 + n)

/-- The lowercase hex digit character for `n < 16`, as produced by
Node's `Buffer.prototype.toString("hex")`. -/
def hexChar (n : Nat) : Char :=
  if n < 10 then Char.ofNat (48 + n) else Char.ofNat (87 + n)

/-- Decimal rendering of a positive natural, fuelled so that it reduces by
`rfl`/`decide`; `fuel ≥ n` renders all digits of `n`. -/
def natToDecAux : Nat → Nat → Str
  | 0, _ => []
  | fuel + 1, n =>
    if n = 0 then [] else natToDecAux fuel (n / 10) ++ [digitChar (n % 10)]

/-- Decimal rendering of a natural number, as JavaScript's
`String(n)` renders an integer-valued number. -/
def natToDec (n : Nat) : Str :=
  if n = 0 then ['0'] else natToDecAux n n

/-- Decimal rendering of an integer, as JavaScript's `String(n)`. -/
def intToDec (i : Int) : Str :=
  if i < 0 then '-' :: natToDec i.natAbs else natToDec i.toNat

/-- Numeric value of a list of decimal digit characters. -/
def decValue (ds : Str) : Nat :=
  List.foldl (fun a c => a * 10 + (c.toNat - 48)) 0 ds

/-- `parseInt(s, 10)`: skip leading whitespace, optional sign, then the
longest prefix of decimal digits; `none` models `NaN`. -/
def parseIntJS (s : Str) : Option Int :=
  let s1 := s.dropWhile isWsB
  let sign : Int := if s1.head? = some '-' then -1 else 1
  let s2 := if s1.head? = some '-' ∨ s1.head? = some '+' then s1.tail else s1
  let ds := s2.takeWhile isDigitB
  if ds.isEmpty then none else some (sign * (decValue ds : Int))

/-- `String.prototype.trim`. -/
def trimStr (s : Str) : Str :=
  ((s.dropWhile isWsB).reverse.dropWhile isWsB).reverse

/-- `Buffer.prototype.toString("hex")`: two lowercase hex digits per byte. -/
def bytesToHex (bs : List Nat) : Str :=
  bs.flatMap (fun b => [hexChar (b / 16 % 16), hexChar (b % 16)])

/-- `String.prototype.split("_")`. -/
def splitUnd : Str → List Str
  | [] => [[]]
  | c :: rest =>
    match splitUnd rest with
    | [] => [[]]
    | s :: ss => if c = '_' then [] :: s :: ss else (c :: s) :: ss

/-- A JSON-decoded JavaScript value as it reaches the two handlers:
a finite number (as an exact rational), `NaN`, the two infinities,
a string, a boolean, `undefined` or `null`. -/
inductive JsValue where
  | num (q : Rat)
  | nan
  | posInf
  | negInf
  | str (s : Str)
  | boolv (b : Bool)
  | undef
  | nullv
deriving DecidableEq

/-- `toIntAmount(x)` from `server.js` lines 42–47:
`parseInt` for strings, then `Number.isFinite` and `Math.floor(n) === n`.
`Number.isFinite` is false (without coercion) on every non-number. -/
def toIntAmount : JsValue → Option Int
  | .str s =>
    match parseIntJS s with
    | none => none
    | some n => some n
  | .num q => if q.den = 1 then some q.num else none
  | _ => none

/-- JavaScript truthiness of a value. -/
def jsTruthy : JsValue → Bool
  | .num q => q ≠ 0
  | .nan => false
  | .posInf => true
  | .negInf => true
  | .str s => !s.isEmpty
  | .boolv b => b
  | .undef => false
  | .nullv => false

/-- `a || b` on JavaScript values. -/
def jsOr (v dflt : JsValue) : JsValue :=
  if jsTruthy v then v else dflt

/-- `safeText(s, maxLen)` from `server.js` lines 49–54: empty string for a
non-string, otherwise trim and truncate to `maxLen` units. -/
def safeText (v : JsValue) (maxLen : Nat) : Str :=
  match v with
  | .str s => (trimStr s).take maxLen
  | _ => []

/-- An entry of the in-memory `orders` map (`server.js` lines 29, 91–97). -/
structure OrderRecord where
  amount : Int
  orderName : Str
  createdAt : Nat
  ip : Str
  ua : Str
deriving DecidableEq

instance : Inhabited OrderRecord :=
  ⟨⟨0, [], 0, [], []⟩⟩

/-- The `orders` map: an insertion-ordered association list, as a
JavaScript `Map` iterates. -/
abbrev Store := List (Str × OrderRecord)

/-- `orders.get(k)` — the entry stored under `k`, if any. -/
def storeGet (st : Store) (k : Str) : Option OrderRecord :=
  (st.find? (fun kv => kv.1 = k)).map (fun kv => kv.2)

/-- `orders.set(k, v)` — overwrite in place if present, else append. -/
def storeSet (st : Store) (k : Str) (v : OrderRecord) : Store :=
  if st.any (fun kv => kv.1 = k) then
    st.map (fun kv => if kv.1 = k then (k, v) else kv)
  else
    st ++ [(k, v)]

/-- `orders.delete(k)`. -/
def storeDelete (st : Store) (k : Str) : Store :=
  st.filter (fun kv => ¬(kv.1 = k))

/-- `cleanupOrders()` (`server.js` lines 35–40): at time `t`, delete every
entry with `t - createdAt > ORDER_TTL_MS` (the stored values are never
falsy in this model, so the `!v` branch never fires). -/
def cleanupOrders (ttlMs : Int) (t : Nat) (st : Store) : Store :=
  st.filter (fun kv => ¬((t : Int) - (kv.2.createdAt : Int) > ttlMs))

/-- `hmacSign(payload)` (`server.js` lines 56–58): the full hex digest
`hs payload`, truncated by `.slice(0, 24)`. -/
def hmacSign (hs : Str → Str) (payload : Str) : Str :=
  (hs payload).take 24

/-- `[amount, orderName, ts, nonce].join("|")` where `amount` is rendered
as a decimal integer and `tsStr`, `nonce` are already strings. -/
def signPayload (amount : Int) (orderName : Str) (tsStr nonce : Str) : Str :=
  intToDec amount ++ '|' :: (orderName ++ '|' :: (tsStr ++ '|' :: nonce))

/-- The fixed identifier prefix `"BARO"`. -/
def baroTag : Str := ['B', 'A', 'R', 'O']

/-- `["BARO", ts, nonce, sig].join("_")`. -/
def mkOrderId (tsStr nonce sig : Str) : Str :=
  baroTag ++ '_' :: (tsStr ++ '_' :: (nonce ++ '_' :: sig))

/-- The fixed placeholder order name `"바로정산"`. -/
def defaultOrderName : Str := ['바', '로', '정', '산']

/-- Body of a `POST /create-order` request, plus the diagnostic headers. -/
structure CreateInput where
  amount : JsValue
  orderName : JsValue
  ip : Str
  ua : Str
deriving DecidableEq

/-- Response of `POST /create-order`. -/
inductive CreateResult where
  | invalidAmount
  | amountExceedsMax (maxAmount : Int)
  | ok (orderId : Str) (amount : Int) (orderName : Str) (maxAmount ttlMs : Int)
deriving DecidableEq

/-- The `POST /create-order` handler (`server.js` lines 65–107):
sweep, validate the amount, normalize the name, mint
`BARO_<ts>_<nonce>_<sig>`, store the record, echo the result.
`t` is `Date.now()`, `nonceBytes` the 8 bytes of `crypto.randomBytes(8)`. -/
def createOrder (hs : Str → Str) (maxAmount ttlMs : Int) (t : Nat)
    (nonceBytes : List Nat) (inp : CreateInput) (st : Store) :
    CreateResult × Store :=
  let st1 := cleanupOrders ttlMs t st
  let orderName := safeText (jsOr inp.orderName (.str defaultOrderName)) 40
  match toIntAmount inp.amount with
  | none => (.invalidAmount, st1)
  | some amount =>
    if amount ≤ 0 then (.invalidAmount, st1)
    else if amount > maxAmount then (.amountExceedsMax maxAmount, st1)
    else
      let nonce := bytesToHex nonceBytes
      let payload := signPayload amount orderName (natToDec t) nonce
      let sig := hmacSign hs payload
      let orderId := mkOrderId (natToDec t) nonce sig
      let record : OrderRecord :=
        { amount := amount, orderName := orderName, createdAt := t,
          ip := inp.ip, ua := inp.ua }
      (.ok orderId amount orderName maxAmount ttlMs, storeSet st1 orderId record)

/-- Outcome of the verification part of `POST /confirm` (everything up to —
and the one store effect after — the outbound processor call). -/
inductive ConfirmResult where
  | missingFields
  | invalidOrderId
  | orderNotFound
  | orderTampered
  | amountMismatch (expectedAmount receivedAmount : Int)
  | authorized (orderId : Str) (amount : Int)
deriving DecidableEq

/-- The verification phase of the `POST /confirm` handler (`server.js`
lines 114–161): sweep, require the fields, parse `BARO_ts_nonce_sig`,
look the identifier up, recheck the signature over the stored
amount/name and the identifier's `ts`/`nonce` segments, compare the
claimed amount.  `paymentKey` and `orderId` are the request's string
fields (`!x` on a string is emptiness). -/
def verifyAndAuthorize (hs : Str → Str) (ttlMs : Int) (t : Nat)
    (paymentKey orderId : Str) (amountRaw : JsValue) (st : Store) :
    ConfirmResult × Store :=
  let st1 := cleanupOrders ttlMs t st
  match toIntAmount amountRaw with
  | none => (.missingFields, st1)
  | some amount =>
    if paymentKey.isEmpty then (.missingFields, st1)
    else if orderId.isEmpty then (.missingFields, st1)
    else
      let parts := splitUnd orderId
      if parts.length = 4 ∧ parts.getD 0 [] = baroTag then
        match storeGet st1 orderId with
        | none => (.orderNotFound, st1)
        | some saved =>
          let tsStr := parts.getD 1 []
          let nonce := parts.getD 2 []
          let sig := parts.getD 3 []
          let expectedSig := hmacSign hs (signPayload saved.amount saved.orderName tsStr nonce)
          if sig ≠ expectedSig then (.orderTampered, st1)
          else if amount ≠ saved.amount then
            (.amountMismatch saved.amount amount, st1)
          else (.authorized orderId amount, st1)
      else (.invalidOrderId, st1)

/-- The whole `POST /confirm` handler: verification, then — when it
authorized and the processor accepted (`relayOk`) — the single-use
deletion of the record (`server.js` lines 179–188; on processor failure
the record is kept, lines 189–200). -/
def confirmOrder (hs : Str → Str) (ttlMs : Int) (t : Nat)
    (paymentKey orderId : Str) (amountRaw : JsValue) (st : Store)
    (relayOk : Bool) : ConfirmResult × Store :=
  match verifyAndAuthorize hs ttlMs t paymentKey orderId amountRaw st with
  | (.authorized oid amt, st1) =>
    (.authorized oid amt, if relayOk then storeDelete st1 orderId else st1)
  | r => r

/-- Lowercase hex digit test. -/
def isHexB (c : Char) : Bool :=
  isDigitB c || ('a' ≤ c && c ≤ 'f')

/-- The abstract HMAC-SHA256 hex digest: 64 lowercase hex characters on
every input (how `digest("hex")` behaves). -/
def HexDigest64 (hs : Str → Str) : Prop :=
  ∀ p, (hs p).length = 64 ∧ ∀ c ∈ hs p, isHexB c = true

/-- The weaker fact most theorems need: the digest never contains `'_'`. -/
def NoUndSig (hs : Str → Str) : Prop :=
  ∀ p, '_' ∉ hs p

theorem ne_und_of_digit {c : Char} (h : isDigitB c = true) : c ≠ '_' := by
  intro e
  subst e
  exact absurd h (by decide)

theorem ne_und_of_hex {c : Char} (h : isHexB c = true) : c ≠ '_' := by
  intro e
  subst e
  exact absurd h (by decide)

theorem noUndSig_of_hexDigest {hs : Str → Str} (h : HexDigest64 hs) : NoUndSig hs := by
  intro p hc
  exact ne_und_of_hex ((h p).2 _ hc) rfl

theorem digitChar_digit {d : Nat} (h : d < 10) : isDigitB (digitChar d) = true := by
  interval_cases d <;> decide

theorem hexChar_hex {d : Nat} (h : d < 16) : isHexB (hexChar d) = true := by
  interval_cases d <;> decide

theorem natToDecAux_digits (fuel : Nat) :
    ∀ n, ∀ c ∈ natToDecAux fuel n, isDigitB c = true := by
  induction fuel with
  | zero => intro n c hc; simp [natToDecAux] at hc
  | succ fuel ih =>
    intro n c hc
    simp only [natToDecAux] at hc
    by_cases h : n = 0
    · simp [h] at hc
    · rw [if_neg h] at hc
      rcases List.mem_append.1 hc with h1 | h1
      · exact ih _ c h1
      · have : c = digitChar (n % 10) := by simpa using h1
        subst this
        exact digitChar_digit (Nat.mod_lt _ (by omega))

theorem natToDec_digits (n : Nat) : ∀ c ∈ natToDec n, isDigitB c = true := by
  intro c hc
  by_cases h : n = 0
  · subst h
    simp [natToDec] at hc
    subst hc
    decide
  · rw [natToDec, if_neg h] at hc
    exact natToDecAux_digits n n c hc

theorem natToDec_no_und (n : Nat) : '_' ∉ natToDec n := by
  intro hc
  exact ne_und_of_digit (natToDec_digits n _ hc) rfl

theorem bytesToHex_hex (bs : List Nat) : ∀ c ∈ bytesToHex bs, isHexB c = true := by
  intro c hc
  simp only [bytesToHex, List.mem_flatMap] at hc
  obtain ⟨b, _, hc⟩ := hc
  rcases List.mem_cons.1 hc with h1 | hc2
  · rw [h1]
    exact hexChar_hex (Nat.mod_lt _ (by omega))
  · have h2 : c = hexChar (b % 16) := by simpa using hc2
    rw [h2]
    exact hexChar_hex (Nat.mod_lt _ (by omega))

theorem bytesToHex_no_und (bs : List Nat) : '_' ∉ bytesToHex bs := by
  intro hc
  exact ne_und_of_hex (bytesToHex_hex bs _ hc) rfl

theorem bytesToHex_length (bs : List Nat) : (bytesToHex bs).length = 2 * bs.length := by
  induction bs with
  | nil => rfl
  | cons b bs ih => simp [bytesToHex] at ih ⊢; omega

theorem hmacSign_no_und {hs : Str → Str} (h : NoUndSig hs) (p : Str) :
    '_' ∉ hmacSign hs p := by
  intro hc
  exact h p ((List.take_sublist 24 (hs p)).mem hc)

theorem splitUnd_ne_nil (s : Str) : splitUnd s ≠ [] := by
  induction s with
  | nil => simp [splitUnd]
  | cons c rest ih =>
    cases h : splitUnd rest with
    | nil => exact absurd h ih
    | cons x xs =>
      simp only [splitUnd, h]
      split <;> simp

theorem splitUnd_no_und (s : Str) (h : '_' ∉ s) : splitUnd s = [s] := by
  induction s with
  | nil => rfl
  | cons c rest ih =>
    have hc : ¬(c = '_') := by intro e; exact h (by simp [e])
    have hr : '_' ∉ rest := by intro m; exact h (by simp [m])
    simp only [splitUnd, ih hr]
    rw [if_neg hc]

theorem splitUnd_append (x y : Str) (hx : '_' ∉ x) :
    splitUnd (x ++ '_' :: y) = x :: splitUnd y := by
  induction x with
  | nil =>
    cases h : splitUnd y with
    | nil => exact absurd h (splitUnd_ne_nil y)
    | cons s ss => simp [splitUnd, h]
  | cons c rest ih =>
    have hc : ¬(c = '_') := by intro e; exact hx (by simp [e])
    have hr : '_' ∉ rest := by intro m; exact hx (by simp [m])
    simp only [List.cons_append, splitUnd, List.append_eq, ih hr]
    rw [if_neg hc]

theorem splitUnd_mkOrderId {t n s : Str} (ht : '_' ∉ t) (hn : '_' ∉ n)
    (hsg : '_' ∉ s) : splitUnd (mkOrderId t n s) = [baroTag, t, n, s] := by
  rw [mkOrderId, splitUnd_append baroTag _ (by decide),
    splitUnd_append t _ ht, splitUnd_append n _ hn, splitUnd_no_und s hsg]

theorem storeGet_eq_none {st : Store} {k : Str} :
    storeGet st k = none ↔ ∀ kv ∈ st, kv.1 ≠ k := by
  simp [storeGet, List.find?_eq_none]

theorem storeGet_cons {kv : Str × OrderRecord} {st : Store} {k : Str} :
    storeGet (kv :: st) k = if kv.1 = k then some kv.2 else storeGet st k := by
  by_cases h : kv.1 = k
  · rw [if_pos h, storeGet, List.find?_cons_of_pos _ (by simpa using h)]
    rfl
  · rw [if_neg h, storeGet, List.find?_cons_of_neg _ (by simpa using h)]
    rfl

theorem storeGet_filter_none {st : Store} {k : Str}
    (p : Str × OrderRecord → Bool) (h : storeGet st k = none) :
    storeGet (st.filter p) k = none := by
  rw [storeGet_eq_none] at h ⊢
  intro kv hkv
  exact h kv (List.mem_of_mem_filter hkv)

theorem storeGet_append_of_none {st1 st2 : Store} {k : Str}
    (h : storeGet st1 k = none) : storeGet (st1 ++ st2) k = storeGet st2 k := by
  induction st1 with
  | nil => simp
  | cons kv st1 ih =>
    rw [storeGet_eq_none] at h
    have h1 : kv.1 ≠ k := h kv (by simp)
    have h2 : storeGet st1 k = none := by
      rw [storeGet_eq_none]
      intro x hx
      exact h x (by simp [hx])
    rw [List.cons_append, storeGet_cons, if_neg h1]
    exact ih h2

theorem storeSet_absent {st : Store} {k : Str} {v : OrderRecord}
    (h : storeGet st k = none) : storeSet st k v = st ++ [(k, v)] := by
  rw [storeSet, if_neg]
  simp only [List.any_eq_true, decide_eq_true_eq, not_exists, not_and]
  intro kv hkv
  exact storeGet_eq_none.1 h kv hkv

theorem storeGet_delete_self (st : Store) (k : Str) :
    storeGet (storeDelete st k) k = none := by
  rw [storeGet_eq_none]
  intro kv hkv
  have := List.of_mem_filter hkv
  simpa using this

theorem cleanup_mem {ttl : Int} {t : Nat} {st : Store} {kv : Str × OrderRecord} :
    kv ∈ cleanupOrders ttl t st ↔
      kv ∈ st ∧ (t : Int) - (kv.2.createdAt : Int) ≤ ttl := by
  simp [cleanupOrders, List.mem_filter, not_lt]

/-- `orderName` normalization of `POST /create-order` line 69. -/
def createName (v : JsValue) : Str :=
  safeText (jsOr v (.str defaultOrderName)) 40

/-- The identifier minted by a successful `POST /create-order` at time `t`
with nonce bytes `nb`. -/
def mintedId (hs : Str → Str) (t : Nat) (nb : List Nat) (amount : Int)
    (orderName : Str) : Str :=
  mkOrderId (natToDec t) (bytesToHex nb)
    (hmacSign hs (signPayload amount orderName (natToDec t) (bytesToHex nb)))

theorem mintedId_splits {hs : Str → Str} (hns : NoUndSig hs) (t : Nat)
    (nb : List Nat) (amount : Int) (orderName : Str) :
    splitUnd (mintedId hs t nb amount orderName) =
      [baroTag, natToDec t, bytesToHex nb,
       hmacSign hs (signPayload amount orderName (natToDec t) (bytesToHex nb))] :=
  splitUnd_mkOrderId (natToDec_no_und t) (bytesToHex_no_und nb)
    (hmacSign_no_und hns _)

theorem createOrder_invalid {hs : Str → Str} {maxA ttl : Int} {t : Nat}
    {nb : List Nat} {inp : CreateInput} {st : Store}
    (h : toIntAmount inp.amount = none ∨
      ∃ n, toIntAmount inp.amount = some n ∧ n ≤ 0) :
    createOrder hs maxA ttl t nb inp st =
      (.invalidAmount, cleanupOrders ttl t st) := by
  rcases h with h | ⟨n, h, hn⟩
  · simp [createOrder, h]
  · simp [createOrder, h, hn]

theorem createOrder_exceeds {hs : Str → Str} {maxA ttl : Int} {t : Nat}
    {nb : List Nat} {inp : CreateInput} {st : Store} {n : Int}
    (h : toIntAmount inp.amount = some n) (h1 : 0 < n) (h2 : n > maxA) :
    createOrder hs maxA ttl t nb inp st =
      (.amountExceedsMax maxA, cleanupOrders ttl t st) := by
  have h3 : ¬(n ≤ 0) := by omega
  simp [createOrder, h, h3, h2]

theorem createOrder_ok {hs : Str → Str} {maxA ttl : Int} {t : Nat}
    {nb : List Nat} {inp : CreateInput} {st : Store} {n : Int}
    (h : toIntAmount inp.amount = some n) (h1 : 0 < n) (h2 : n ≤ maxA) :
    createOrder hs maxA ttl t nb inp st =
      (.ok (mintedId hs t nb n (createName inp.orderName)) n
        (createName inp.orderName) maxA ttl,
       storeSet (cleanupOrders ttl t st) (mintedId hs t nb n (createName inp.orderName))
         ⟨n, createName inp.orderName, t, inp.ip, inp.ua⟩) := by
  have h3 : ¬(n ≤ 0) := by omega
  have h4 : ¬(n > maxA) := by omega
  simp [createOrder, h, h3, h4, mintedId, createName, mkOrderId]

theorem isEmpty_false_of_ne_nil {l : Str} (h : l ≠ []) : l.isEmpty = false := by
  cases l with
  | nil => exact absurd rfl h
  | cons a l => rfl

theorem toIntAmount_int (n : Int) : toIntAmount (.num (n : Rat)) = some n := by
  simp [toIntAmount, Rat.den_intCast, Rat.num_intCast]

theorem verify_missing {hs : Str → Str} {ttl : Int} {t : Nat}
    {pk oid : Str} {amtRaw : JsValue} {st : Store}
    (h : toIntAmount amtRaw = none ∨ pk = [] ∨ oid = []) :
    verifyAndAuthorize hs ttl t pk oid amtRaw st =
      (.missingFields, cleanupOrders ttl t st) := by
  rcases h with h | h | h
  · simp [verifyAndAuthorize, h]
  · subst h
    cases hA : toIntAmount amtRaw <;> simp [verifyAndAuthorize, hA]
  · subst h
    cases hA : toIntAmount amtRaw
    · simp [verifyAndAuthorize, hA]
    · by_cases hp : pk = []
      · subst hp
        simp [verifyAndAuthorize, hA]
      · simp [verifyAndAuthorize, hA, isEmpty_false_of_ne_nil hp]

theorem verify_invalid {hs : Str → Str} {ttl : Int} {t : Nat}
    {pk oid : Str} {amtRaw : JsValue} {st : Store} {n : Int}
    (ha : toIntAmount amtRaw = some n) (hpk : pk ≠ []) (hoid : oid ≠ [])
    (h : ¬((splitUnd oid).length = 4 ∧ (splitUnd oid).getD 0 [] = baroTag)) :
    verifyAndAuthorize hs ttl t pk oid amtRaw st =
      (.invalidOrderId, cleanupOrders ttl t st) := by
  simp [verifyAndAuthorize, ha, isEmpty_false_of_ne_nil hpk,
    isEmpty_false_of_ne_nil hoid]
  intro h4 h0
  exact absurd ⟨h4, by simpa [List.getD] using h0⟩ h

theorem verify_notFound {hs : Str → Str} {ttl : Int} {t : Nat}
    {pk oid : Str} {amtRaw : JsValue} {st : Store} {n : Int}
    (ha : toIntAmount amtRaw = some n) (hpk : pk ≠ []) (hoid : oid ≠ [])
    (h4 : (splitUnd oid).length = 4) (h0 : (splitUnd oid).getD 0 [] = baroTag)
    (hget : storeGet (cleanupOrders ttl t st) oid = none) :
    verifyAndAuthorize hs ttl t pk oid amtRaw st =
      (.orderNotFound, cleanupOrders ttl t st) := by
  simp [verifyAndAuthorize, ha, isEmpty_false_of_ne_nil hpk,
    isEmpty_false_of_ne_nil hoid, h4, hget]
  have hlt : 0 < (splitUnd oid).length := by omega
  simpa [List.getD_eq_getElem?_getD, List.getElem?_eq_getElem hlt] using h0

theorem verify_found {hs : Str → Str} {ttl : Int} {t : Nat}
    {pk oid : Str} {amtRaw : JsValue} {st : Store} {n : Int}
    {saved : OrderRecord}
    (ha : toIntAmount amtRaw = some n) (hpk : pk ≠ []) (hoid : oid ≠ [])
    (h4 : (splitUnd oid).length = 4) (h0 : (splitUnd oid).getD 0 [] = baroTag)
    (hget : storeGet (cleanupOrders ttl t st) oid = some saved) :
    verifyAndAuthorize hs ttl t pk oid amtRaw st =
      (if (splitUnd oid).getD 3 [] ≠
          hmacSign hs (signPayload saved.amount saved.orderName
            ((splitUnd oid).getD 1 []) ((splitUnd oid).getD 2 []))
       then .orderTampered
       else if n ≠ saved.amount then .amountMismatch saved.amount n
       else .authorized oid n,
       cleanupOrders ttl t st) := by
  simp only [verifyAndAuthorize, ha, isEmpty_false_of_ne_nil hpk,
    isEmpty_false_of_ne_nil hoid, hget, if_pos (And.intro h4 h0),
    Bool.false_eq_true, if_false]
  split_ifs <;> rfl

theorem digit_not_ws {c : Char} (h : isDigitB c = true) : isWsB c = false := by
  simp only [isDigitB, Bool.and_eq_true, decide_eq_true_eq] at h
  obtain ⟨h1, h2⟩ := h
  simp only [isWsB, Bool.or_eq_false_iff, decide_eq_false_iff_not]
  refine ⟨⟨⟨?_, ?_⟩, ?_⟩, ?_⟩ <;>
    · intro e
      subst e
      exact absurd h1 (by decide)

theorem digit_not_minus {c : Char} (h : isDigitB c = true) : c ≠ '-' := by
  simp only [isDigitB, Bool.and_eq_true, decide_eq_true_eq] at h
  intro e
  subst e
  exact absurd h.1 (by decide)

theorem digit_not_plus {c : Char} (h : isDigitB c = true) : c ≠ '+' := by
  simp only [isDigitB, Bool.and_eq_true, decide_eq_true_eq] at h
  intro e
  subst e
  exact absurd h.1 (by decide)

theorem takeWhile_digits_append (ds rest : Str)
    (hds : ∀ c ∈ ds, isDigitB c = true)
    (hrest : ∀ c, rest.head? = some c → isDigitB c = false) :
    (ds ++ rest).takeWhile isDigitB = ds := by
  induction ds with
  | nil =>
    cases rest with
    | nil => rfl
    | cons r rs => simp [List.takeWhile_cons, hrest r rfl]
  | cons d ds ih =>
    simp only [List.cons_append, List.takeWhile_cons, hds d (by simp)]
    simp [ih (fun c hc => hds c (by simp [hc]))]

/-- On a string starting with a decimal digit, `parseInt` returns the value
of the longest digit prefix, whatever follows it. -/
theorem parseIntJS_digit_prefix (ds rest : Str) (hne : ds ≠ [])
    (hds : ∀ c ∈ ds, isDigitB c = true)
    (hrest : ∀ c, rest.head? = some c → isDigitB c = false) :
    parseIntJS (ds ++ rest) = some (decValue ds : Int) := by
  cases ds with
  | nil => exact absurd rfl hne
  | cons d ds' =>
    have hd : isDigitB d = true := hds d (by simp)
    have hdrop : List.dropWhile isWsB (d :: (ds' ++ rest)) = d :: (ds' ++ rest) := by
      simp [List.dropWhile_cons, digit_not_ws hd]
    have htake : List.takeWhile isDigitB (d :: (ds' ++ rest)) = d :: ds' := by
      have h2 := takeWhile_digits_append (d :: ds') rest hds hrest
      simpa using h2
    have hdm : ¬(d = '-') := digit_not_minus hd
    have hdp : ¬(d = '+') := digit_not_plus hd
    show parseIntJS (d :: (ds' ++ rest)) = some (decValue (d :: ds') : Int)
    simp only [parseIntJS, hdrop, List.head?_cons, Option.some.injEq]
    rw [if_neg (by tauto : ¬(d = '-' ∨ d = '+')), if_neg hdm, htake]
    simp

theorem toIntAmount_str_digit_prefix (ds rest : Str) (hne : ds ≠ [])
    (hds : ∀ c ∈ ds, isDigitB c = true)
    (hrest : ∀ c, rest.head? = some c → isDigitB c = false) :
    toIntAmount (.str (ds ++ rest)) = some (decValue ds : Int) := by
  simp [toIntAmount, parseIntJS_digit_prefix ds rest hne hds hrest]

theorem storeGet_map_overwrite (st : Store) (k : Str) (v : OrderRecord)
    (h : st.any (fun kv => kv.1 = k) = true) :
    storeGet (st.map (fun kv => if kv.1 = k then (k, v) else kv)) k = some v := by
  induction st with
  | nil => simp at h
  | cons kv st ih =>
    rw [List.map_cons]
    by_cases hk : kv.1 = k
    · rw [if_pos hk, storeGet_cons]
      simp
    · rw [if_neg hk, storeGet_cons, if_neg hk]
      apply ih
      simpa [hk] using h

theorem storeGet_set_self (st : Store) (k : Str) (v : OrderRecord) :
    storeGet (storeSet st k v) k = some v := by
  rw [storeSet]
  split
  · exact storeGet_map_overwrite st k v (by assumption)
  · have hnone : storeGet st k = none := by
      rw [storeGet_eq_none]
      intro kv hkv he
      have : st.any (fun kv => kv.1 = k) = true :=
        List.any_eq_true.2 ⟨kv, hkv, by simp [he]⟩
      simp_all
    rw [storeGet_append_of_none hnone, storeGet_cons]
    simp

theorem storeSet_key_unique (st : Store) (k : Str) (v : OrderRecord) :
    ∀ kv ∈ storeSet st k v, kv.1 = k → kv.2 = v := by
  intro kv hmem hk
  rw [storeSet] at hmem
  split at hmem
  · obtain ⟨y, hy, he⟩ := List.mem_map.1 hmem
    by_cases h2 : y.1 = k
    · rw [if_pos h2] at he
      rw [← he]
    · rw [if_neg h2] at he
      subst he
      exact absurd hk h2
  · rcases List.mem_append.1 hmem with h | h
    · rename_i hany
      have : st.any (fun kv => kv.1 = k) = true :=
        List.any_eq_true.2 ⟨kv, h, by simp [hk]⟩
      simp_all
    · have : kv = (k, v) := by simpa using h
      rw [this]

theorem storeGet_cleanup_none_of_expired {ttl : Int} {t : Nat} {st : Store}
    {k : Str} (h : ∀ kv ∈ st, kv.1 = k → (t : Int) - kv.2.createdAt > ttl) :
    storeGet (cleanupOrders ttl t st) k = none := by
  rw [storeGet_eq_none]
  intro kv hkv hk
  rw [cleanup_mem] at hkv
  have := h kv hkv.1 hk
  omega

theorem verify_snd (hs : Str → Str) (ttl : Int) (t : Nat) (pk oid : Str)
    (amtRaw : JsValue) (st : Store) :
    (verifyAndAuthorize hs ttl t pk oid amtRaw st).2 = cleanupOrders ttl t st := by
  rw [verifyAndAuthorize]
  cases toIntAmount amtRaw
  · rfl
  · dsimp only
    split
    · rfl
    · split
      · rfl
      · split
        · split
          · rfl
          · split
            · rfl
            · split <;> rfl
        · rfl

theorem createOrder_invalid_iff {hs : Str → Str} {maxA ttl : Int} {t : Nat}
    {nb : List Nat} {inp : CreateInput} {st : Store} :
    (createOrder hs maxA ttl t nb inp st).1 = .invalidAmount ↔
      toIntAmount inp.amount = none ∨
        ∃ n, toIntAmount inp.amount = some n ∧ n ≤ 0 := by
  constructor
  · intro h
    cases hA : toIntAmount inp.amount with
    | none => exact Or.inl rfl
    | some n =>
      by_cases h1 : n ≤ 0
      · exact Or.inr ⟨n, rfl, h1⟩
      · by_cases h2 : n > maxA
        · rw [createOrder_exceeds hA (by omega) h2] at h
          simp at h
        · rw [createOrder_ok hA (by omega) (by omega)] at h
          simp at h
  · intro h
    rw [createOrder_invalid h]

theorem createOrder_exceeds_iff {hs : Str → Str} {maxA ttl : Int} {t : Nat}
    {nb : List Nat} {inp : CreateInput} {st : Store} {m : Int} :
    (createOrder hs maxA ttl t nb inp st).1 = .amountExceedsMax m ↔
      m = maxA ∧ ∃ n, toIntAmount inp.amount = some n ∧ 0 < n ∧ maxA < n := by
  constructor
  · intro h
    cases hA : toIntAmount inp.amount with
    | none =>
      rw [createOrder_invalid (Or.inl hA)] at h
      simp at h
    | some n =>
      by_cases h1 : n ≤ 0
      · rw [createOrder_invalid (Or.inr ⟨n, hA, h1⟩)] at h
        simp at h
      · by_cases h2 : n > maxA
        · rw [createOrder_exceeds hA (by omega) h2] at h
          simp at h
          exact ⟨h.symm, n, rfl, by omega, h2⟩
        · rw [createOrder_ok hA (by omega) (by omega)] at h
          simp at h
  · rintro ⟨rfl, n, hA, h1, h2⟩
    rw [createOrder_exceeds hA h1 h2]

theorem createOrder_ok_inv {hs : Str → Str} {maxA ttl : Int} {t : Nat}
    {nb : List Nat} {inp : CreateInput} {st : Store}
    {oid : Str} {a : Int} {nm : Str} {mx tl : Int}
    (h : (createOrder hs maxA ttl t nb inp st).1 = .ok oid a nm mx tl) :
    toIntAmount inp.amount = some a ∧ 0 < a ∧ a ≤ maxA ∧ mx = maxA ∧
      tl = ttl ∧ nm = createName inp.orderName ∧ oid = mintedId hs t nb a nm := by
  cases hA : toIntAmount inp.amount with
  | none =>
    rw [createOrder_invalid (Or.inl hA)] at h
    simp at h
  | some n =>
    by_cases h1 : n ≤ 0
    · rw [createOrder_invalid (Or.inr ⟨n, hA, h1⟩)] at h
      simp at h
    · by_cases h2 : n > maxA
      · rw [createOrder_exceeds hA (by omega) h2] at h
        simp at h
      · rw [createOrder_ok hA (by omega) (by omega)] at h
        simp only [CreateResult.ok.injEq] at h
        obtain ⟨ho, ha, hn, hm, ht⟩ := h
        subst ha
        refine ⟨rfl, by omega, by omega, hm.symm, ht.symm, hn.symm, ?_⟩
        rw [← ho, hn]

/-- Fixed stand-in digest function for concrete witnesses: every payload
maps to 64 letters `a` (a well-formed hex digest shape). -/
def hsW : Str → Str := fun _ => List.replicate 64 'a'

/-- Concrete well-formed identifier whose signature segment is wrong. -/
def oidW : Str := ['B', 'A', 'R', 'O', '_', '0', '_', 'f', 'f', '_', 'z', 'z']

/-- Concrete stored record for witnesses. -/
def savedW : OrderRecord := ⟨5, [], 0, [], []⟩

/-- Concrete identifier whose signature segment matches `hsW`. -/
def oidW2 : Str :=
  ['B', 'A', 'R', 'O', '_', '0', '_', 'f', 'f', '_'] ++ List.replicate 24 'a'

/-- C3: in `verifyAndAuthorize`, after a record is found for the identifier,
the signature is recomputed over the stored record's amount and orderName
together with the timestamp and nonce segments embedded in the received
identifier, and verification fails with `OrderTampered` exactly when this
recomputed tag differs from the identifier's embedded signature segment. -/
theorem C3_tamper_check_iff
    (hs : Str → Str) (ttl : Int) (t : Nat) (pk oid : Str) (amtRaw : JsValue)
    (st : Store) (n : Int) (saved : OrderRecord)
    (ha : toIntAmount amtRaw = some n) (hpk : pk ≠ []) (hoid : oid ≠ [])
    (h4 : (splitUnd oid).length = 4) (h0 : (splitUnd oid).getD 0 [] = baroTag)
    (hget : storeGet (cleanupOrders ttl t st) oid = some saved) :
    (verifyAndAuthorize hs ttl t pk oid amtRaw st).1 = .orderTampered ↔
      (splitUnd oid).getD 3 [] ≠
        hmacSign hs (signPayload saved.amount saved.orderName
          ((splitUnd oid).getD 1 []) ((splitUnd oid).getD 2 [])) := by
  rw [verify_found ha hpk hoid h4 h0 hget]
  dsimp only
  split_ifs with h1 h2
  · exact iff_of_true rfl h1
  · exact iff_of_false (by simp) h1
  · exact iff_of_false (by simp) h1

/-- Witness for C3 at a concrete input (signature segment `zz` does not
match the recomputed 24-character tag, so the verdict is `OrderTampered`). -/
theorem C3_tamper_check_iff_witness :
    (verifyAndAuthorize hsW 1000 0 ['p'] oidW (.num (5 : Rat))
        [(oidW, savedW)]).1 = .orderTampered ↔
      (splitUnd oidW).getD 3 [] ≠
        hmacSign hsW (signPayload savedW.amount savedW.orderName
          ((splitUnd oidW).getD 1 []) ((splitUnd oidW).getD 2 [])) :=
  C3_tamper_check_iff hsW 1000 0 ['p'] oidW (.num (5 : Rat)) [(oidW, savedW)]
    5 savedW (by decide) (by decide) (by decide) (by decide) (by decide)
    (by decide)

/-- C4: for every stored order record that passes the signature check, a
claimed amount different from the record's stored amount is rejected with
`AmountMismatch`, reporting the stored amount as expected and the claimed
amount as received. -/
theorem C4_amount_mismatch
    (hs : Str → Str) (ttl : Int) (t : Nat) (pk oid : Str) (amtRaw : JsValue)
    (st : Store) (n : Int) (saved : OrderRecord)
    (ha : toIntAmount amtRaw = some n) (hpk : pk ≠ []) (hoid : oid ≠ [])
    (h4 : (splitUnd oid).length = 4) (h0 : (splitUnd oid).getD 0 [] = baroTag)
    (hget : storeGet (cleanupOrders ttl t st) oid = some saved)
    (hsig : (splitUnd oid).getD 3 [] =
      hmacSign hs (signPayload saved.amount saved.orderName
        ((splitUnd oid).getD 1 []) ((splitUnd oid).getD 2 [])))
    (hne : n ≠ saved.amount) :
    (verifyAndAuthorize hs ttl t pk oid amtRaw st).1 =
      .amountMismatch saved.amount n := by
  rw [verify_found ha hpk hoid h4 h0 hget]
  dsimp only
  rw [if_neg (not_not_intro hsig), if_pos hne]

/-- Witness for C4 at a concrete input: claimed amount 6 against stored
amount 5 on a signature-valid identifier. -/
theorem C4_amount_mismatch_witness :
    (verifyAndAuthorize hsW 1000 0 ['p'] oidW2 (.num (6 : Rat))
        [(oidW2, savedW)]).1 = .amountMismatch 5 6 :=
  C4_amount_mismatch hsW 1000 0 ['p'] oidW2 (.num (6 : Rat)) [(oidW2, savedW)]
    6 savedW (by decide) (by decide) (by decide) (by decide) (by decide)
    (by decide) (by decide) (by decide)

/-- C6: `createOrder` fails with `InvalidAmount` for every amount that does
not coerce to an integer (non-finite, non-integral, or non-numeric without
a digit prefix) and for every non-positive integer — in particular for the
inputs `0`, `-5`, `"abc"` and `3.5` (written `mkRat 7 2`) — and fails with
`AmountExceedsMax` for every integral amount above `MAX_AMOUNT`, the
rejection carrying the configured ceiling. -/
theorem C6_create_amount_validation
    (hs : Str → Str) (maxA ttl : Int) (t : Nat) (nb : List Nat)
    (nameV : JsValue) (ip ua : Str) (st : Store) (hmax : 0 ≤ maxA) :
    ((createOrder hs maxA ttl t nb ⟨.num 0, nameV, ip, ua⟩ st).1 =
      .invalidAmount) ∧
    ((createOrder hs maxA ttl t nb ⟨.num (-5), nameV, ip, ua⟩ st).1 =
      .invalidAmount) ∧
    ((createOrder hs maxA ttl t nb ⟨.str ['a', 'b', 'c'], nameV, ip, ua⟩ st).1 =
      .invalidAmount) ∧
    ((createOrder hs maxA ttl t nb ⟨.num (mkRat 7 2), nameV, ip, ua⟩ st).1 =
      .invalidAmount) ∧
    (∀ q : Rat, q.den ≠ 1 →
      (createOrder hs maxA ttl t nb ⟨.num q, nameV, ip, ua⟩ st).1 =
        .invalidAmount) ∧
    ((createOrder hs maxA ttl t nb ⟨.nan, nameV, ip, ua⟩ st).1 =
      .invalidAmount) ∧
    ((createOrder hs maxA ttl t nb ⟨.posInf, nameV, ip, ua⟩ st).1 =
      .invalidAmount) ∧
    ((createOrder hs maxA ttl t nb ⟨.negInf, nameV, ip, ua⟩ st).1 =
      .invalidAmount) ∧
    (∀ n : Int, n ≤ 0 →
      (createOrder hs maxA ttl t nb ⟨.num (n : Rat), nameV, ip, ua⟩ st).1 =
        .invalidAmount) ∧
    (∀ n : Int, maxA < n →
      (createOrder hs maxA ttl t nb ⟨.num (n : Rat), nameV, ip, ua⟩ st).1 =
        .amountExceedsMax maxA) := by
  refine ⟨?_, ?_, ?_, ?_, ?_, ?_, ?_, ?_, ?_, ?_⟩
  · rw [createOrder_invalid
      (Or.inr ⟨0, (by decide : toIntAmount (JsValue.num 0) = some 0), le_refl 0⟩)]
  · rw [createOrder_invalid
      (Or.inr ⟨-5, (by decide : toIntAmount (JsValue.num (-5)) = some (-5)),
        by decide⟩)]
  · rw [createOrder_invalid
      (Or.inl (by decide : toIntAmount (JsValue.str ['a', 'b', 'c']) = none))]
  · rw [createOrder_invalid
      (Or.inl (by decide : toIntAmount (JsValue.num (mkRat 7 2)) = none))]
  · intro q hq
    rw [createOrder_invalid
      (Or.inl (show toIntAmount (JsValue.num q) = none by
        simp [toIntAmount, hq]))]
  · rw [createOrder_invalid (Or.inl (rfl : toIntAmount JsValue.nan = none))]
  · rw [createOrder_invalid (Or.inl (rfl : toIntAmount JsValue.posInf = none))]
  · rw [createOrder_invalid (Or.inl (rfl : toIntAmount JsValue.negInf = none))]
  · intro n hn
    rw [createOrder_invalid (Or.inr ⟨n, toIntAmount_int n, hn⟩)]
  · intro n hn
    rw [createOrder_exceeds (toIntAmount_int n) (by omega) hn]

/-- Witness for C6 at concrete inputs (ceiling 500000). -/
theorem C6_create_amount_validation_witness :
    (0 : Int) ≤ 500000 ∧
    (createOrder hsW 500000 1800000 0 [] ⟨.num 0, .undef, [], []⟩ []).1 =
      .invalidAmount :=
  ⟨by decide,
    (C6_create_amount_validation hsW 500000 1800000 0 [] .undef [] [] []
      (by decide)).1⟩

/-- C9: a string amount is coerced by decimal-prefix parsing — any string
whose leading characters form a decimal integer is accepted with that value
even if the rest is non-numeric or fractional (the strings `"3.5"` and
`"10abc"` yield 3 and 10), while the finiteness/integrality rejection
applies to numeric (non-string) inputs. -/
theorem C9_string_prefix_parsing
    (hs : Str → Str) (maxA ttl : Int) (t : Nat) (nb : List Nat)
    (nameV : JsValue) (ip ua : Str) (st : Store) :
    toIntAmount (.str ['3', '.', '5']) = some 3 ∧
    toIntAmount (.str ['1', '0', 'a', 'b', 'c']) = some 10 ∧
    ((3 : Int) ≤ maxA →
      (createOrder hs maxA ttl t nb ⟨.str ['3', '.', '5'], nameV, ip, ua⟩ st).1 =
        .ok (mintedId hs t nb 3 (createName nameV)) 3 (createName nameV)
          maxA ttl) ∧
    ((10 : Int) ≤ maxA →
      (createOrder hs maxA ttl t nb
          ⟨.str ['1', '0', 'a', 'b', 'c'], nameV, ip, ua⟩ st).1 =
        .ok (mintedId hs t nb 10 (createName nameV)) 10 (createName nameV)
          maxA ttl) ∧
    (∀ ds rest : Str, ds ≠ [] → (∀ c ∈ ds, isDigitB c = true) →
      (∀ c, rest.head? = some c → isDigitB c = false) →
      toIntAmount (.str (ds ++ rest)) = some (decValue ds : Int)) ∧
    (∀ q : Rat, q.den ≠ 1 → toIntAmount (.num q) = none) ∧
    toIntAmount .nan = none ∧ toIntAmount .posInf = none ∧
    toIntAmount .negInf = none := by
  refine ⟨by decide, by decide, ?_, ?_, toIntAmount_str_digit_prefix, ?_, rfl,
    rfl, rfl⟩
  · intro hm
    rw [createOrder_ok
      (by decide : toIntAmount (JsValue.str ['3', '.', '5']) = some 3)
      (by decide) hm]
  · intro hm
    rw [createOrder_ok
      (by decide : toIntAmount (JsValue.str ['1', '0', 'a', 'b', 'c']) = some 10)
      (by decide) hm]
  · intro q hq
    simp [toIntAmount, hq]

/-- Witness for C9 with the default ceiling. -/
theorem C9_string_prefix_parsing_witness :
    toIntAmount (.str ['3', '.', '5']) = some 3 ∧
    (createOrder hsW 500000 1800000 0 [] ⟨.str ['3', '.', '5'], .undef, [], []⟩
        []).1 =
      .ok (mintedId hsW 0 [] 3 (createName .undef)) 3 (createName .undef)
        500000 1800000 :=
  ⟨(C9_string_prefix_parsing hsW 500000 1800000 0 [] .undef [] [] []).1,
    (C9_string_prefix_parsing hsW 500000 1800000 0 [] .undef [] [] []).2.2.1
      (by decide)⟩

/-- C7 fails as stated: the blank (whitespace-only, hence truthy) orderName
`"   "` is stored and echoed as the empty string, not as the placeholder
`"바로정산"`. -/
theorem C7_counterexample :
    (createOrder hsW 500000 1800000 0 []
        ⟨.num 1000, .str [' ', ' ', ' '], [], []⟩ []).1 =
      .ok (mintedId hsW 0 [] 1000 []) 1000 [] 500000 1800000 ∧
    ([] : Str) ≠ defaultOrderName := by
  exact ⟨by decide, by decide⟩

/-- C7 (amended): the placeholder is used exactly when the raw orderName is
falsy (absent, null, empty string, 0, NaN, false); a truthy whitespace-only
string is trimmed to the empty string rather than replaced by the
placeholder; any other truthy string is trimmed and truncated to 40 units;
a truthy non-string becomes the empty string; the normalized name never
exceeds 40 units; and createOrder never rejects a request because of
orderName. -/
theorem C7_orderName_normalization
    (hs : Str → Str) (maxA ttl : Int) (t : Nat) (nb : List Nat)
    (v amountV : JsValue) (ip ua : Str) (st : Store) :
    (jsTruthy v = false → createName v = defaultOrderName) ∧
    (∀ s, v = .str s → s ≠ [] → createName v = (trimStr s).take 40) ∧
    ((∀ s, v ≠ .str s) → jsTruthy v = true → createName v = []) ∧
    (createName v).length ≤ 40 ∧
    (∀ v' : JsValue,
      ((createOrder hs maxA ttl t nb ⟨amountV, v, ip, ua⟩ st).1 =
          .invalidAmount ↔
        (createOrder hs maxA ttl t nb ⟨amountV, v', ip, ua⟩ st).1 =
          .invalidAmount) ∧
      (∀ m, (createOrder hs maxA ttl t nb ⟨amountV, v, ip, ua⟩ st).1 =
          .amountExceedsMax m ↔
        (createOrder hs maxA ttl t nb ⟨amountV, v', ip, ua⟩ st).1 =
          .amountExceedsMax m)) ∧
    (∀ n, toIntAmount amountV = some n → 0 < n → n ≤ maxA →
      createOrder hs maxA ttl t nb ⟨amountV, v, ip, ua⟩ st =
        (.ok (mintedId hs t nb n (createName v)) n (createName v) maxA ttl,
         storeSet (cleanupOrders ttl t st) (mintedId hs t nb n (createName v))
           ⟨n, createName v, t, ip, ua⟩)) := by
  refine ⟨?_, ?_, ?_, ?_, ?_, ?_⟩
  · intro h
    simp only [createName, jsOr, h, Bool.false_eq_true, if_false]
    decide
  · intro s hv hne
    subst hv
    simp [createName, jsOr, jsTruthy, isEmpty_false_of_ne_nil hne, safeText]
  · intro hns htr
    cases v with
    | str s0 => exact absurd rfl (hns s0)
    | num q =>
      have hq : ¬(q = 0) := by simpa [jsTruthy] using htr
      simp [createName, jsOr, jsTruthy, hq, safeText]
    | boolv b =>
      have hb : b = true := by simpa [jsTruthy] using htr
      subst hb
      simp [createName, jsOr, jsTruthy, safeText]
    | nan => simp [jsTruthy] at htr
    | posInf => simp [createName, jsOr, jsTruthy, safeText]
    | negInf => simp [createName, jsOr, jsTruthy, safeText]
    | undef => simp [jsTruthy] at htr
    | nullv => simp [jsTruthy] at htr
  · rw [createName]
    cases h : jsOr v (.str defaultOrderName)
    case str s => simp [safeText]
    all_goals simp [safeText]
  · intro v'
    constructor
    · rw [createOrder_invalid_iff, createOrder_invalid_iff]
    · intro m
      rw [createOrder_exceeds_iff, createOrder_exceeds_iff]
  · intro n hA h1 h2
    exact createOrder_ok hA h1 h2

/-- Witness for the amended C7 at a concrete input: the placeholder for the
absent name, and the blank-name empty normalization from the same theorem. -/
theorem C7_orderName_normalization_witness :
    createName .undef = defaultOrderName ∧
    createName (.str [' ', ' ', ' ']) = (trimStr [' ', ' ', ' ']).take 40 :=
  ⟨(C7_orderName_normalization hsW 500000 1800000 0 [] .undef .undef [] []
      []).1 rfl,
    (C7_orderName_normalization hsW 500000 1800000 0 [] (.str [' ', ' ', ' '])
      .undef [] [] []).2.1 [' ', ' ', ' '] rfl (by decide)⟩

/-- Value of a lowercase hex digit character. -/
def hexVal (c : Char) : Nat :=
  if isDigitB c then c.toNat - 48 else c.toNat - 87

theorem hexVal_hexChar {d : Nat} (h : d < 16) : hexVal (hexChar d) = d := by
  interval_cases d <;> decide

theorem hexChar_inj {a b : Nat} (ha : a < 16) (hb : b < 16)
    (h : hexChar a = hexChar b) : a = b := by
  have h2 := congrArg hexVal h
  rwa [hexVal_hexChar ha, hexVal_hexChar hb] at h2

theorem bytesToHex_inj : ∀ xs ys : List Nat, (∀ b ∈ xs, b < 256) →
    (∀ b ∈ ys, b < 256) → bytesToHex xs = bytesToHex ys → xs = ys := by
  intro xs
  induction xs with
  | nil =>
    intro ys _ _ h
    cases ys with
    | nil => rfl
    | cons y ys => simp [bytesToHex] at h
  | cons x xs ih =>
    intro ys hx hy h
    cases ys with
    | nil => simp [bytesToHex] at h
    | cons y ys =>
      simp only [bytesToHex, List.flatMap_cons, List.cons_append,
        List.nil_append, List.cons.injEq] at h
      obtain ⟨h1, h2, h3⟩ := h
      have hxx : x < 256 := hx x (by simp)
      have hyy : y < 256 := hy y (by simp)
      have e1 : x / 16 % 16 = y / 16 % 16 :=
        hexChar_inj (by omega) (by omega) h1
      have e2 : x % 16 = y % 16 := hexChar_inj (by omega) (by omega) h2
      have exy : x = y := by omega
      subst exy
      rw [ih ys (fun b hb => hx b (by simp [hb]))
        (fun b hb => hy b (by simp [hb])) h3]

theorem hmacSign_length {hs : Str → Str} (hh : HexDigest64 hs) (p : Str) :
    (hmacSign hs p).length = 24 := by
  simp [hmacSign, List.length_take, (hh p).1]

theorem hmacSign_hex {hs : Str → Str} (hh : HexDigest64 hs) (p : Str) :
    ∀ c ∈ hmacSign hs p, isHexB c = true := by
  intro c hc
  exact (hh p).2 c ((List.take_sublist 24 (hs p)).mem hc)

/-- C8: every identifier returned by `createOrder` has the form
`BARO_<decimal timestamp>_<hex nonce>_<24-hex-char signature>`: it is the
underscore-join of the fixed prefix, the all-digit decimal timestamp, the
16-hex-character encoding of the 8 random bytes (injective, hence carrying
the full 64 bits), and the HMAC of `amount|orderName|timestamp|nonce`
truncated to 24 hex characters. -/
theorem C8_identifier_format
    (hs : Str → Str) (hh : HexDigest64 hs) (maxA ttl : Int) (t : Nat)
    (nb : List Nat) (hnb : nb.length = 8) (hbytes : ∀ b ∈ nb, b < 256)
    (inp : CreateInput) (st : Store)
    (oid : Str) (a : Int) (nm : Str) (mx tl : Int)
    (hok : (createOrder hs maxA ttl t nb inp st).1 = .ok oid a nm mx tl) :
    oid = mkOrderId (natToDec t) (bytesToHex nb)
        (hmacSign hs (signPayload a nm (natToDec t) (bytesToHex nb))) ∧
    splitUnd oid = [baroTag, natToDec t, bytesToHex nb,
        hmacSign hs (signPayload a nm (natToDec t) (bytesToHex nb))] ∧
    (∀ c ∈ natToDec t, isDigitB c = true) ∧
    (bytesToHex nb).length = 16 ∧
    (∀ c ∈ bytesToHex nb, isHexB c = true) ∧
    (∀ nb' : List Nat, (∀ b ∈ nb', b < 256) →
      bytesToHex nb' = bytesToHex nb → nb' = nb) ∧
    (hmacSign hs (signPayload a nm (natToDec t) (bytesToHex nb))).length =
      24 ∧
    (∀ c ∈ hmacSign hs (signPayload a nm (natToDec t) (bytesToHex nb)),
      isHexB c = true) ∧
    hmacSign hs (signPayload a nm (natToDec t) (bytesToHex nb)) =
      (hs (signPayload a nm (natToDec t) (bytesToHex nb))).take 24 := by
  obtain ⟨hA, h1, h2, hm, ht, hn, ho⟩ := createOrder_ok_inv hok
  refine ⟨ho, ?_, natToDec_digits t, ?_, bytesToHex_hex nb,
    fun nb' hb' he => bytesToHex_inj nb' nb hb' hbytes he,
    hmacSign_length hh _, hmacSign_hex hh _, rfl⟩
  · rw [ho]
    exact mintedId_splits (noUndSig_of_hexDigest hh) t nb a nm
  · rw [bytesToHex_length, hnb]

theorem hsW_hexDigest : HexDigest64 hsW := by
  intro p
  constructor
  · simp [hsW]
  · intro c hc
    have he : c = 'a' := List.eq_of_mem_replicate hc
    subst he
    decide

/-- Witness for C8 at a concrete issuance. -/
theorem C8_identifier_format_witness :
    mintedId hsW 0 [1, 2, 3, 4, 5, 6, 7, 8] 1000 defaultOrderName =
      mkOrderId (natToDec 0) (bytesToHex [1, 2, 3, 4, 5, 6, 7, 8])
        (hmacSign hsW (signPayload 1000 defaultOrderName (natToDec 0)
          (bytesToHex [1, 2, 3, 4, 5, 6, 7, 8]))) :=
  (C8_identifier_format hsW hsW_hexDigest 500000 1800000 0
    [1, 2, 3, 4, 5, 6, 7, 8] (by decide) (by decide)
    ⟨.num 1000, .undef, [], []⟩ []
    (mintedId hsW 0 [1, 2, 3, 4, 5, 6, 7, 8] 1000 defaultOrderName) 1000
    defaultOrderName 500000 1800000 (by decide)).1

theorem cleanup_singleton_keep {ttl : Int} {t : Nat} {kv : Str × OrderRecord}
    (h : (t : Int) - kv.2.createdAt ≤ ttl) :
    cleanupOrders ttl t [kv] = [kv] := by
  simp only [cleanupOrders, List.filter_cons, List.filter_nil]
  rw [if_pos]
  simp only [decide_eq_true_eq]
  omega

theorem cleanup_append (ttl : Int) (t : Nat) (st1 st2 : Store) :
    cleanupOrders ttl t (st1 ++ st2) =
      cleanupOrders ttl t st1 ++ cleanupOrders ttl t st2 := by
  simp [cleanupOrders, List.filter_append]

theorem storeGet_cleanup_none {ttl : Int} {t : Nat} {st : Store} {k : Str}
    (h : storeGet st k = none) :
    storeGet (cleanupOrders ttl t st) k = none :=
  storeGet_filter_none _ h

theorem mintedId_ne_nil (hs : Str → Str) (t : Nat) (nb : List Nat)
    (amount : Int) (nm : Str) : mintedId hs t nb amount nm ≠ [] := by
  simp [mintedId, mkOrderId, baroTag]

theorem verify_success {hs : Str → Str} {ttl : Int} {t : Nat}
    {pk oid nonceStr : Str} {amtRaw : JsValue} {st : Store}
    {saved : OrderRecord}
    (ha : toIntAmount amtRaw = some saved.amount) (hpk : pk ≠ [])
    (hoid : oid ≠ [])
    (hsplit : splitUnd oid = [baroTag, natToDec saved.createdAt, nonceStr,
      hmacSign hs (signPayload saved.amount saved.orderName
        (natToDec saved.createdAt) nonceStr)])
    (hget : storeGet (cleanupOrders ttl t st) oid = some saved) :
    verifyAndAuthorize hs ttl t pk oid amtRaw st =
      (.authorized oid saved.amount, cleanupOrders ttl t st) := by
  have h4 : (splitUnd oid).length = 4 := by rw [hsplit]; rfl
  have h0 : (splitUnd oid).getD 0 [] = baroTag := by rw [hsplit]; rfl
  rw [verify_found ha hpk hoid h4 h0 hget]
  rw [hsplit]
  simp [List.getD]

/-- C2: for every amount and orderName with `0 < amount ≤ MAX_AMOUNT`,
`createOrder` followed immediately by `verifyAndAuthorize` with the
returned identifier and the same amount authorizes the confirmation; after
that success, including the relay's single-use deletion of the record, a
second `verifyAndAuthorize` with the same identifier fails with
`OrderNotFound`. -/
theorem C2_single_use
    (hs : Str → Str) (hns : NoUndSig hs) (maxA ttl : Int) (httl : 0 ≤ ttl)
    (t : Nat) (nb : List Nat) (amount : Int) (h1 : 0 < amount)
    (h2 : amount ≤ maxA) (nameV : JsValue) (ip ua pk : Str) (hpk : pk ≠ [])
    (st0 : Store)
    (hfresh : storeGet st0 (mintedId hs t nb amount (createName nameV)) =
      none) :
    (createOrder hs maxA ttl t nb ⟨.num (amount : Rat), nameV, ip, ua⟩
        st0).1 =
      .ok (mintedId hs t nb amount (createName nameV)) amount
        (createName nameV) maxA ttl ∧
    (verifyAndAuthorize hs ttl t pk
        (mintedId hs t nb amount (createName nameV)) (.num (amount : Rat))
        (createOrder hs maxA ttl t nb ⟨.num (amount : Rat), nameV, ip, ua⟩
          st0).2).1 =
      .authorized (mintedId hs t nb amount (createName nameV)) amount ∧
    (verifyAndAuthorize hs ttl t pk
        (mintedId hs t nb amount (createName nameV)) (.num (amount : Rat))
        (confirmOrder hs ttl t pk
          (mintedId hs t nb amount (createName nameV)) (.num (amount : Rat))
          (createOrder hs maxA ttl t nb
            ⟨.num (amount : Rat), nameV, ip, ua⟩ st0).2
          true).2).1 = .orderNotFound := by
  have hA := toIntAmount_int amount
  have hcr := @createOrder_ok hs maxA ttl t nb
    ⟨.num (amount : Rat), nameV, ip, ua⟩ st0 amount hA h1 h2
  have hfresh1 : storeGet (cleanupOrders ttl t st0)
      (mintedId hs t nb amount (createName nameV)) = none :=
    storeGet_filter_none _ hfresh
  have hset : storeSet (cleanupOrders ttl t st0)
      (mintedId hs t nb amount (createName nameV))
      ⟨amount, createName nameV, t, ip, ua⟩ =
      cleanupOrders ttl t st0 ++
        [(mintedId hs t nb amount (createName nameV),
          ⟨amount, createName nameV, t, ip, ua⟩)] :=
    storeSet_absent hfresh1
  have hsnd : (createOrder hs maxA ttl t nb
      ⟨.num (amount : Rat), nameV, ip, ua⟩ st0).2 =
      cleanupOrders ttl t st0 ++
        [(mintedId hs t nb amount (createName nameV),
          ⟨amount, createName nameV, t, ip, ua⟩)] := by
    rw [hcr, ← hset]
  have hclean : cleanupOrders ttl t
      (cleanupOrders ttl t st0 ++
        [(mintedId hs t nb amount (createName nameV),
          ⟨amount, createName nameV, t, ip, ua⟩)]) =
      cleanupOrders ttl t (cleanupOrders ttl t st0) ++
        [(mintedId hs t nb amount (createName nameV),
          ⟨amount, createName nameV, t, ip, ua⟩)] := by
    rw [cleanup_append]
    rw [cleanup_singleton_keep
      (show (t : Int) - ((t : Nat) : Int) ≤ ttl by omega)]
  have hget1 : storeGet (cleanupOrders ttl t
      (cleanupOrders ttl t st0 ++
        [(mintedId hs t nb amount (createName nameV),
          ⟨amount, createName nameV, t, ip, ua⟩)]))
      (mintedId hs t nb amount (createName nameV)) =
      some ⟨amount, createName nameV, t, ip, ua⟩ := by
    rw [hclean,
      storeGet_append_of_none (storeGet_cleanup_none hfresh1),
      storeGet_cons, if_pos rfl]
  have hverify := @verify_success hs ttl t pk
    (mintedId hs t nb amount (createName nameV)) (bytesToHex nb)
    (.num (amount : Rat))
    (cleanupOrders ttl t st0 ++
      [(mintedId hs t nb amount (createName nameV),
        ⟨amount, createName nameV, t, ip, ua⟩)])
    ⟨amount, createName nameV, t, ip, ua⟩ hA hpk
    (mintedId_ne_nil hs t nb amount (createName nameV))
    (mintedId_splits hns t nb amount (createName nameV)) hget1
  have hconfirm : confirmOrder hs ttl t pk
      (mintedId hs t nb amount (createName nameV)) (.num (amount : Rat))
      (cleanupOrders ttl t st0 ++
        [(mintedId hs t nb amount (createName nameV),
          ⟨amount, createName nameV, t, ip, ua⟩)]) true =
      (.authorized (mintedId hs t nb amount (createName nameV)) amount,
       storeDelete (cleanupOrders ttl t
        (cleanupOrders ttl t st0 ++
          [(mintedId hs t nb amount (createName nameV),
            ⟨amount, createName nameV, t, ip, ua⟩)]))
        (mintedId hs t nb amount (createName nameV))) := by
    rw [confirmOrder, hverify]
    rfl
  have hget2 : storeGet (cleanupOrders ttl t
      (storeDelete (cleanupOrders ttl t
        (cleanupOrders ttl t st0 ++
          [(mintedId hs t nb amount (createName nameV),
            ⟨amount, createName nameV, t, ip, ua⟩)]))
        (mintedId hs t nb amount (createName nameV))))
      (mintedId hs t nb amount (createName nameV)) = none :=
    storeGet_cleanup_none (storeGet_delete_self _ _)
  refine ⟨by rw [hcr], ?_, ?_⟩
  · rw [hsnd, hverify]
  · rw [hsnd, hconfirm]
    rw [verify_notFound hA hpk
      (mintedId_ne_nil hs t nb amount (createName nameV))
      (by rw [mintedId_splits hns t nb amount (createName nameV)]; rfl)
      (by rw [mintedId_splits hns t nb amount (createName nameV)]; rfl)
      hget2]

/-- Witness for C2 at a concrete issuance and confirmation. -/
theorem C2_single_use_witness :
    (verifyAndAuthorize hsW 1800000 0 ['p']
        (mintedId hsW 0 [1, 2, 3, 4, 5, 6, 7, 8] 1000 (createName .undef))
        (.num ((1000 : Int) : Rat))
        (createOrder hsW 500000 1800000 0 [1, 2, 3, 4, 5, 6, 7, 8]
          ⟨.num ((1000 : Int) : Rat), .undef, [], []⟩ []).2).1 =
      .authorized
        (mintedId hsW 0 [1, 2, 3, 4, 5, 6, 7, 8] 1000 (createName .undef))
        1000 :=
  (C2_single_use hsW (noUndSig_of_hexDigest hsW_hexDigest) 500000 1800000
    (by decide) 0 [1, 2, 3, 4, 5, 6, 7, 8] 1000 (by decide) (by decide)
    .undef [] [] ['p'] (by decide) [] (by decide)).2.1

theorem cleanup_idem (ttl : Int) (t : Nat) (st : Store) :
    cleanupOrders ttl t (cleanupOrders ttl t st) = cleanupOrders ttl t st := by
  simp [cleanupOrders, List.filter_filter]

/-- C5: the sweep pass removes exactly the records whose age `now -
createdAt` exceeds `ORDER_TTL_MS`; it runs at the start of every issuance
and every verification call (both handlers behave as if running on the
pre-swept store); consequently, verifying an identifier more than
`ORDER_TTL_MS` after its issuance fails with `OrderNotFound`. -/
theorem C5_ttl_expiry
    (hs : Str → Str) (hns : NoUndSig hs) (maxA ttl : Int)
    (t1 t2 : Nat) (hlate : (t2 : Int) - (t1 : Int) > ttl)
    (nb : List Nat) (inp : CreateInput) (st0 : Store)
    (oid : Str) (a : Int) (nm : Str) (mx tl : Int)
    (hok : (createOrder hs maxA ttl t1 nb inp st0).1 = .ok oid a nm mx tl)
    (pk : Str) (hpk : pk ≠ []) (amtRaw : JsValue) (n : Int)
    (ha : toIntAmount amtRaw = some n) :
    (∀ (st : Store) (tt : Nat) (kv : Str × OrderRecord),
      kv ∈ cleanupOrders ttl tt st ↔
        kv ∈ st ∧ (tt : Int) - kv.2.createdAt ≤ ttl) ∧
    (∀ st inp2 tt nb2, createOrder hs maxA ttl tt nb2 inp2 st =
      createOrder hs maxA ttl tt nb2 inp2 (cleanupOrders ttl tt st)) ∧
    (∀ st pk2 oid2 amt2 tt,
      verifyAndAuthorize hs ttl tt pk2 oid2 amt2 st =
        verifyAndAuthorize hs ttl tt pk2 oid2 amt2 (cleanupOrders ttl tt st)) ∧
    (verifyAndAuthorize hs ttl t2 pk oid amtRaw
        (createOrder hs maxA ttl t1 nb inp st0).2).1 = .orderNotFound := by
  obtain ⟨hA, h1, h2, hm, ht, hnm, ho⟩ := createOrder_ok_inv hok
  subst hnm
  subst ho
  refine ⟨fun st tt kv => cleanup_mem, ?_, ?_, ?_⟩
  · intro st inp2 tt nb2
    simp only [createOrder, cleanup_idem]
  · intro st pk2 oid2 amt2 tt
    simp only [verifyAndAuthorize, cleanup_idem]
  · have hcr := @createOrder_ok hs maxA ttl t1 nb inp st0 a hA h1 h2
    have hexp : storeGet (cleanupOrders ttl t2
        (createOrder hs maxA ttl t1 nb inp st0).2)
        (mintedId hs t1 nb a (createName inp.orderName)) = none := by
      rw [hcr]
      apply storeGet_cleanup_none_of_expired
      intro kv hkv hk
      have hv := storeSet_key_unique _ _ _ kv hkv hk
      rw [hv]
      show (t2 : Int) - ((t1 : Nat) : Int) > ttl
      omega
    rw [verify_notFound ha hpk
      (mintedId_ne_nil hs t1 nb a (createName inp.orderName))
      (by rw [mintedId_splits hns t1 nb a (createName inp.orderName)]; rfl)
      (by rw [mintedId_splits hns t1 nb a (createName inp.orderName)]; rfl)
      hexp]

/-- Witness for C5: an order issued at time 0 with TTL 1000 is gone when
verified at time 1001. -/
theorem C5_ttl_expiry_witness :
    (verifyAndAuthorize hsW 1000 1001 ['p']
        (mintedId hsW 0 [1, 2, 3, 4, 5, 6, 7, 8] 1000 (createName .undef))
        (.num ((1000 : Int) : Rat))
        (createOrder hsW 500000 1000 0 [1, 2, 3, 4, 5, 6, 7, 8]
          ⟨.num ((1000 : Int) : Rat), .undef, [], []⟩ []).2).1 =
      .orderNotFound :=
  (C5_ttl_expiry hsW (noUndSig_of_hexDigest hsW_hexDigest) 500000 1000 0 1001
    (by decide) [1, 2, 3, 4, 5, 6, 7, 8]
    ⟨.num ((1000 : Int) : Rat), .undef, [], []⟩ []
    (mintedId hsW 0 [1, 2, 3, 4, 5, 6, 7, 8] 1000 (createName .undef)) 1000
    (createName .undef) 500000 1000 (by decide) ['p'] (by decide)
    (.num ((1000 : Int) : Rat)) 1000 (by decide)).2.2.2

/-- The identifier issued by the concrete run of the C1 counterexample,
with the first character of its nonce segment changed from `0` to `1`
(still a well-formed four-segment `BARO` token). -/
def mutatedIdW : Str :=
  ("BARO_0_1102030405060708_aaaaaaaaaaaaaaaaaaaaaaaa").toList

/-- C1 fails as stated: mutating the nonce segment of a freshly issued
identifier, keeping it a well-formed token, makes verification fail with
`ORDER_NOT_FOUND` — the mutated string is no longer a key of the order
store, and the lookup runs before the signature check — not with
`INVALID_ORDER_ID` or `ORDER_TAMPERED` as the claim requires. -/
theorem C1_counterexample :
    (verifyAndAuthorize hsW 1800000 0 ['p'] mutatedIdW (.num 1000)
        (createOrder hsW 500000 1800000 0 [1, 2, 3, 4, 5, 6, 7, 8]
          ⟨.num 1000, .undef, [], []⟩ []).2).1 = .orderNotFound ∧
    (ConfirmResult.orderNotFound ≠ .invalidOrderId ∧
      ConfirmResult.orderNotFound ≠ .orderTampered) ∧
    (splitUnd mutatedIdW).length = 4 ∧
    (splitUnd mutatedIdW).getD 0 [] = baroTag := by
  exact ⟨by decide, ⟨by decide, by decide⟩, by decide, by decide⟩

/-- C1 (amended): for an identifier issued by a successful `createOrder` on
an empty store, rewriting its four segments to any other well-formed
quadruple (each segment free of underscores, so the token still parses
into exactly four segments) makes verification fail: with `InvalidOrderId`
when the prefix segment no longer reads `BARO`, and with `OrderNotFound`
otherwise, because the mutated string is looked up as a store key before
any signature check and is absent; it never succeeds. -/
theorem C1_mutation_never_verifies
    (hs : Str → Str) (hns : NoUndSig hs) (maxA ttl : Int) (t : Nat)
    (nb : List Nat) (inp : CreateInput)
    (oid : Str) (a : Int) (nm : Str) (mx tl : Int)
    (hok : (createOrder hs maxA ttl t nb inp []).1 = .ok oid a nm mx tl)
    (p' t' n' s' : Str) (hp : '_' ∉ p') (ht : '_' ∉ t') (hn : '_' ∉ n')
    (hsg : '_' ∉ s')
    (hdiff : (p', t', n', s') ≠ (baroTag, natToDec t, bytesToHex nb,
      hmacSign hs (signPayload a nm (natToDec t) (bytesToHex nb))))
    (pk : Str) (hpk : pk ≠ []) (amtRaw : JsValue) (n : Int)
    (ha : toIntAmount amtRaw = some n) :
    (verifyAndAuthorize hs ttl t pk
        (p' ++ '_' :: (t' ++ '_' :: (n' ++ '_' :: s'))) amtRaw
        (createOrder hs maxA ttl t nb inp []).2).1 =
      (if p' = baroTag then .orderNotFound else .invalidOrderId) ∧
    (∀ o am, (verifyAndAuthorize hs ttl t pk
        (p' ++ '_' :: (t' ++ '_' :: (n' ++ '_' :: s'))) amtRaw
        (createOrder hs maxA ttl t nb inp []).2).1 ≠ .authorized o am) := by
  obtain ⟨hA, h1, h2, hm, htl, hnm, ho⟩ := createOrder_ok_inv hok
  subst hnm
  subst ho
  have hsplit : splitUnd (p' ++ '_' :: (t' ++ '_' :: (n' ++ '_' :: s'))) =
      [p', t', n', s'] := by
    rw [splitUnd_append p' _ hp, splitUnd_append t' _ ht,
      splitUnd_append n' _ hn, splitUnd_no_und s' hsg]
  have hmidne : p' ++ '_' :: (t' ++ '_' :: (n' ++ '_' :: s')) ≠ [] := by
    cases p' <;> simp
  have hmain : (verifyAndAuthorize hs ttl t pk
      (p' ++ '_' :: (t' ++ '_' :: (n' ++ '_' :: s'))) amtRaw
      (createOrder hs maxA ttl t nb inp []).2).1 =
      (if p' = baroTag then .orderNotFound else .invalidOrderId) := by
    by_cases hpb : p' = baroTag
    · rw [if_pos hpb]
      have hneq : p' ++ '_' :: (t' ++ '_' :: (n' ++ '_' :: s')) ≠
          mintedId hs t nb a (createName inp.orderName) := by
        intro he
        have h3 := hsplit.symm.trans
          (he ▸ mintedId_splits hns t nb a (createName inp.orderName))
        simp only [List.cons.injEq] at h3
        exact hdiff (by
          obtain ⟨e1, e2, e3, e4, _⟩ := h3
          rw [e1, e2, e3, e4])
      have hcr := @createOrder_ok hs maxA ttl t nb inp [] a hA h1 h2
      have hget0 : storeGet
          (cleanupOrders ttl t (createOrder hs maxA ttl t nb inp []).2)
          (p' ++ '_' :: (t' ++ '_' :: (n' ++ '_' :: s'))) = none := by
        rw [hcr]
        apply storeGet_cleanup_none
        rw [storeGet_eq_none]
        intro kv hkv hke
        rw [storeSet] at hkv
        simp only [cleanupOrders, List.filter_nil, List.any_nil,
          Bool.false_eq_true, if_false, List.nil_append,
          List.mem_singleton] at hkv
        rw [hkv] at hke
        exact hneq (hke.symm)
      rw [verify_notFound ha hpk hmidne (by rw [hsplit]; rfl)
        (by rw [hsplit]; simpa using hpb) hget0]
    · rw [if_neg hpb]
      rw [verify_invalid ha hpk hmidne ?_]
      rw [hsplit]
      intro hcon
      exact hpb (by simpa using hcon.2)
  refine ⟨hmain, ?_⟩
  intro o am
  rw [hmain]
  by_cases hpb : p' = baroTag <;> simp [hpb]

/-- Witness for the amended C1: a nonce mutation of a concrete issuance is
rejected with `OrderNotFound`. -/
theorem C1_mutation_never_verifies_witness :
    (verifyAndAuthorize hsW 1800000 0 ['p']
        (baroTag ++ '_' :: (natToDec 0 ++ '_' ::
          (("1102030405060708").toList ++ '_' :: List.replicate 24 'a')))
        (.num 1000)
        (createOrder hsW 500000 1800000 0 [1, 2, 3, 4, 5, 6, 7, 8]
          ⟨.num 1000, .undef, [], []⟩ []).2).1 =
      (if baroTag = baroTag then .orderNotFound else .invalidOrderId) :=
  (C1_mutation_never_verifies hsW (noUndSig_of_hexDigest hsW_hexDigest)
    500000 1800000 0 [1, 2, 3, 4, 5, 6, 7, 8] ⟨.num 1000, .undef, [], []⟩
    (mintedId hsW 0 [1, 2, 3, 4, 5, 6, 7, 8] 1000 (createName .undef)) 1000
    (createName .undef) 500000 1800000 (by decide) baroTag (natToDec 0)
    (("1102030405060708").toList) (List.replicate 24 'a') (by decide)
    (by decide) (by decide) (by decide) (by decide) ['p'] (by decide)
    (.num 1000) 1000 (by decide)).1

theorem createName_length_le (v : JsValue) : (createName v).length ≤ 40 := by
  rw [createName]
  cases h : jsOr v (.str defaultOrderName)
  case str s => simp [safeText]
  all_goals simp [safeText]

/-- Consistency of one stored entry with its key: amount within bounds,
name within 40 units, and the key is the four-segment `BARO` token whose
timestamp segment is the record's `createdAt` and whose signature segment
is the truncated HMAC over the record's own fields and the key's nonce. -/
def RecordOk (hs : Str → Str) (maxA : Int) (k : Str) (r : OrderRecord) :
    Prop :=
  0 < r.amount ∧ r.amount ≤ maxA ∧ r.orderName.length ≤ 40 ∧
  ∃ nonce : Str,
    splitUnd k = [baroTag, natToDec r.createdAt, nonce,
      hmacSign hs (signPayload r.amount r.orderName (natToDec r.createdAt)
        nonce)]

/-- Every entry of the store satisfies `RecordOk`. -/
def StoreOk (hs : Str → Str) (maxA : Int) (st : Store) : Prop :=
  ∀ kv ∈ st, RecordOk hs maxA kv.1 kv.2

theorem storeOk_sub {hs : Str → Str} {maxA : Int} {st st' : Store}
    (hsub : ∀ kv ∈ st', kv ∈ st) (h : StoreOk hs maxA st) :
    StoreOk hs maxA st' :=
  fun kv hkv => h kv (hsub kv hkv)

theorem storeOk_cleanup {hs : Str → Str} {maxA ttl : Int} {t : Nat}
    {st : Store} (h : StoreOk hs maxA st) :
    StoreOk hs maxA (cleanupOrders ttl t st) :=
  storeOk_sub (fun _ hkv => List.mem_of_mem_filter hkv) h

theorem storeOk_delete {hs : Str → Str} {maxA : Int} {st : Store} {k : Str}
    (h : StoreOk hs maxA st) : StoreOk hs maxA (storeDelete st k) :=
  storeOk_sub (fun _ hkv => List.mem_of_mem_filter hkv) h

theorem storeOk_set {hs : Str → Str} {maxA : Int} {st : Store} {k : Str}
    {v : OrderRecord} (h : StoreOk hs maxA st) (hkv : RecordOk hs maxA k v) :
    StoreOk hs maxA (storeSet st k v) := by
  intro kv hmem
  rw [storeSet] at hmem
  split at hmem
  · obtain ⟨y, hy, he⟩ := List.mem_map.1 hmem
    by_cases hk : y.1 = k
    · rw [if_pos hk] at he
      rw [← he]
      exact hkv
    · rw [if_neg hk] at he
      rw [← he]
      exact h y hy
  · rcases List.mem_append.1 hmem with hmem | hmem
    · exact h kv hmem
    · have he : kv = (k, v) := by simpa using hmem
      rw [he]
      exact hkv

theorem recordOk_minted {hs : Str → Str} (hns : NoUndSig hs) {maxA : Int}
    (t : Nat) (nb : List Nat) (a : Int) (nmV : JsValue) (ip ua : Str)
    (h1 : 0 < a) (h2 : a ≤ maxA) :
    RecordOk hs maxA (mintedId hs t nb a (createName nmV))
      ⟨a, createName nmV, t, ip, ua⟩ :=
  ⟨h1, h2, createName_length_le nmV, bytesToHex nb,
    mintedId_splits hns t nb a (createName nmV)⟩

theorem confirm_snd (hs : Str → Str) (ttl : Int) (t : Nat) (pk oid : Str)
    (amtRaw : JsValue) (st : Store) (rOk : Bool) :
    (confirmOrder hs ttl t pk oid amtRaw st rOk).2 =
        cleanupOrders ttl t st ∨
      (confirmOrder hs ttl t pk oid amtRaw st rOk).2 =
        storeDelete (cleanupOrders ttl t st) oid := by
  cases hv : verifyAndAuthorize hs ttl t pk oid amtRaw st with
  | mk r st1 =>
    have hst1 : st1 = cleanupOrders ttl t st := by
      have h2 := verify_snd hs ttl t pk oid amtRaw st
      rw [hv] at h2
      exact h2
    subst hst1
    cases r <;> simp [confirmOrder, hv]
    cases rOk <;> simp

/-- C10: every record present in the order store at any reachable state
satisfies `0 < amount ≤ MAX_AMOUNT`, name length ≤ 40, and key/record
consistency (four-segment `BARO` key whose timestamp segment equals the
record's `createdAt` and whose signature segment is the truncated HMAC of
the record's amount, orderName, `createdAt` and the key's nonce); the
empty initial store satisfies it and issuance, verification, confirmation
(with or without consumption), sweeping and deletion all preserve it. -/
theorem C10_store_invariant (hs : Str → Str) (hns : NoUndSig hs)
    (maxA ttl : Int) :
    StoreOk hs maxA [] ∧
    (∀ t st inp nb, StoreOk hs maxA st →
      StoreOk hs maxA (createOrder hs maxA ttl t nb inp st).2) ∧
    (∀ t st pk oid amtRaw, StoreOk hs maxA st →
      StoreOk hs maxA (verifyAndAuthorize hs ttl t pk oid amtRaw st).2) ∧
    (∀ t st pk oid amtRaw rOk, StoreOk hs maxA st →
      StoreOk hs maxA (confirmOrder hs ttl t pk oid amtRaw st rOk).2) ∧
    (∀ t st, StoreOk hs maxA st → StoreOk hs maxA (cleanupOrders ttl t st)) ∧
    (∀ st k, StoreOk hs maxA st → StoreOk hs maxA (storeDelete st k)) := by
  refine ⟨fun kv hkv => absurd hkv (List.not_mem_nil kv), ?_, ?_, ?_,
    fun t st h => storeOk_cleanup h, fun st k h => storeOk_delete h⟩
  · intro t st inp nb h
    cases hA : toIntAmount inp.amount with
    | none =>
      rw [createOrder_invalid (Or.inl hA)]
      exact storeOk_cleanup h
    | some n =>
      by_cases hn1 : n ≤ 0
      · rw [createOrder_invalid (Or.inr ⟨n, hA, hn1⟩)]
        exact storeOk_cleanup h
      · by_cases hn2 : n > maxA
        · rw [createOrder_exceeds hA (by omega) hn2]
          exact storeOk_cleanup h
        · rw [createOrder_ok hA (by omega) (by omega)]
          exact storeOk_set (storeOk_cleanup h)
            (recordOk_minted hns t nb n inp.orderName inp.ip inp.ua
              (by omega) (by omega))
  · intro t st pk oid amtRaw h
    rw [verify_snd]
    exact storeOk_cleanup h
  · intro t st pk oid amtRaw rOk h
    rcases confirm_snd hs ttl t pk oid amtRaw st rOk with h2 | h2
    · rw [h2]
      exact storeOk_cleanup h
    · rw [h2]
      exact storeOk_delete (storeOk_cleanup h)

/-- Witness for C10: the invariant holds for the empty store and is carried
through a concrete issuance. -/
theorem C10_store_invariant_witness :
    StoreOk hsW 500000
      (createOrder hsW 500000 1800000 0 [1, 2, 3, 4, 5, 6, 7, 8]
        ⟨.num 1000, .undef, [], []⟩ []).2 :=
  (C10_store_invariant hsW (noUndSig_of_hexDigest hsW_hexDigest) 500000
    1800000).2.1 0 [] ⟨.num 1000, .undef, [], []⟩ [1, 2, 3, 4, 5, 6, 7, 8]
    (fun kv hkv => absurd hkv (List.not_mem_nil kv))
